import Mathlib

set_option maxHeartbeats 1000000

namespace ConfigHistory

/-! Shallow embedding of pkg/storage/git_store.go: a git-backed storage that
records every change of a config resource as a commit.  Failures of the
external collaborators (go-git worktree, billy filesystem, os file system)
are modelled by explicit boolean environment flags.  The git layer follows
go-git v4 semantics: the repository carries a staging index besides the
working tree and the tree of the last commit; the status is clean when every
file is unmodified in both columns (head versus index, index versus working
tree — an untracked file makes the status unclean); Add(path) stages that
path (content from the working tree, or the deletion when the file is gone);
Commit with the option All set to true first restages every file already in
the index from the working tree (modified and deleted tracked files; never
untracked files) and then commits the staging index as the tree. -/

/-- Type descriptor of a tracked object (schema.GroupVersionKind). -/
structure GroupVersionKind where
  group : String
  version : String
  kind : String
deriving DecidableEq

/-- strings.ToLower: lowers the string character by character. -/
def strToLower (s : String) : String :=
  String.mk (s.data.map Char.toLower)

/-- resourceFilename returns strings.ToLower of "Kind.Version.Group.yaml"
(fmt.Sprintf with the three descriptor fields, then lowered). -/
def resourceFilename (gvk : GroupVersionKind) : String :=
  strToLower (gvk.kind ++ "." ++ gvk.version ++ "." ++ gvk.group ++ ".yaml")

/-- An unstructured.Unstructured input object: its type descriptor, an opaque
payload standing for the instance identity and full state, flags telling
whether runtime.Encode or yaml.JSONToYAML fails on it, and the YAML bytes
produced when both succeed. -/
structure Unstructured where
  gvk : GroupVersionKind
  payload : String
  encodeErr : Bool
  yamlErr : Bool
  yamlBytes : String
deriving DecidableEq

/-- The dynamic value handed to an event handler: either a pointer to
unstructured.Unstructured, or a value of any other concrete type. -/
inductive InputObj where
  | unstructured (u : Unstructured)
  | other
deriving DecidableEq

instance : DecidableEq (Except String String) := fun a b =>
  match a, b with
  | Except.ok x, Except.ok y => decidable_of_iff (x = y) (by simp)
  | Except.error x, Except.error y => decidable_of_iff (x = y) (by simp)
  | Except.ok _, Except.error _ => isFalse (fun hc => Except.noConfusion hc)
  | Except.error _, Except.ok _ => isFalse (fun hc => Except.noConfusion hc)

/-- Result of decodeUnstructuredObject.  The unchecked type assertion
obj.(*unstructured.Unstructured) panics on any other concrete type; otherwise
the function returns the filename together with either the YAML content or
the encode/convert error (content nil in the source on error). -/
inductive DecodeResult where
  | panicked
  | ok (name : String) (res : Except String String)
deriving DecidableEq

def decodeUnstructuredObject : InputObj → DecodeResult
  | InputObj.other => DecodeResult.panicked
  | InputObj.unstructured u =>
    if u.encodeErr then DecodeResult.ok (resourceFilename u.gvk) (Except.error "encode")
    else if u.yamlErr then DecodeResult.ok (resourceFilename u.gvk) (Except.error "JSONToYAML")
    else DecodeResult.ok (resourceFilename u.gvk) (Except.ok u.yamlBytes)

/-- The working tree, as an association list from file name to file bytes. -/
abbrev FS := List (String × String)

/-- Content of a named file, none when the file is absent. -/
def fsFind : FS → String → Option String
  | [], _ => none
  | p :: rest, n => if p.1 = n then some p.2 else fsFind rest n

/-- Removal of a named file. -/
def fsErase : FS → String → FS
  | [], _ => []
  | p :: rest, n => if p.1 = n then fsErase rest n else p :: fsErase rest n

theorem fsFind_erase_self (fs : FS) (n : String) : fsFind (fsErase fs n) n = none := by
  induction fs with
  | nil => rfl
  | cons p rest ih =>
    by_cases h : p.1 = n
    · simpa [fsErase, fsFind, h] using ih
    · simpa [fsErase, fsFind, h] using ih

theorem fsFind_erase_ne (fs : FS) (n m : String) (h : m ≠ n) :
    fsFind (fsErase fs n) m = fsFind fs m := by
  induction fs with
  | nil => rfl
  | cons p rest ih =>
    by_cases hp : p.1 = n
    · simp [fsErase, fsFind, hp, Ne.symm h, ih]
    · by_cases hm : p.1 = m
      · simp [fsErase, fsFind, hp, hm, h]
      · simp [fsErase, fsFind, hp, hm, ih]

/-- Failure environment for the working-tree file operations: Lstat failing
with an error other than not-exist, and Create, Write, Close, Remove
failures. -/
structure WriteEnv where
  lstatErr : Bool
  createErr : Bool
  writeErr : Bool
  closeErr : Bool
  removeErr : Bool
deriving DecidableEq

/-- delete: t.Filesystem.Remove(name).  Removing a missing file reports a
not-found error; a failed step leaves the modelled tree unchanged. -/
def delete (env : WriteEnv) (fs : FS) (name : String) : Except String FS :=
  if env.removeErr then Except.error "remove"
  else match fsFind fs name with
    | none => Except.error "file does not exist"
    | some _ => Except.ok (fsErase fs name)

/-- write: Lstat the name; when the file is absent, create it and write the
content; when it is present, remove it (the s.delete call, inlined: the file
exists on this branch, so only the Remove failure can occur) and recurse as
the source does.  A failed step leaves the modelled tree unchanged. -/
def write (env : WriteEnv) (fs : FS) (name content : String) : Except String FS :=
  if env.lstatErr then Except.error "lstat"
  else
    match hfind : fsFind fs name with
    | none =>
      if env.createErr then Except.error "create"
      else if env.writeErr then Except.error "write"
      else if env.closeErr then Except.error "close"
      else Except.ok ((name, content) :: fs)
    | some _ =>
      if env.removeErr then Except.error "remove"
      else write env (fsErase fs name) name content
termination_by (fsFind fs name).toList.length
decreasing_by simp [fsFind_erase_self, hfind]

/-- One commit of the history log: message, the fixed system author, the
per-event committer built from the acting component, the snapshot of the
working tree it records, and its content-addressed identifier
(modelled as a string determined by the position in the log). -/
structure CommitRec where
  hash : String
  message : String
  authorName : String
  authorEmail : String
  committerName : String
  committerEmail : String
  tree : FS
deriving DecidableEq

/-- The repository: working tree, staging index, tree of the last commit
(index and head empty when there is no commit yet), the history log, and the
current content of the .git/info/refs index file (none before the first
successful publish). -/
structure RepoState where
  worktree : FS
  index : FS
  head : FS
  log : List CommitRec
  refsFile : Option String
deriving DecidableEq

/-- t.Status().IsClean(): every file is Unmodified in both status columns —
the staging column compares the last commit's tree with the index, the
worktree column compares the index with the working tree.  A file present in
the working tree but absent from the index is Untracked and makes the status
unclean. -/
def isCleanStatus (w idx h : FS) : Bool :=
  (w.map Prod.fst ++ idx.map Prod.fst ++ h.map Prod.fst).all fun n =>
    decide (fsFind idx n = fsFind h n ∧ fsFind w n = fsFind idx n)

/-- Failure environment for the commit path: repo.Worktree(), t.Status(),
t.Add(name) and t.Commit failures. -/
structure CommitEnv where
  worktreeErr : Bool
  statusErr : Bool
  addErr : Bool
  commitErr : Bool
deriving DecidableEq

/-- Operations of the commit writer, in the order the source performs them. -/
inductive GitOp where
  | getWorktree
  | getStatus
  | stageAdd
  | createCommit
deriving DecidableEq

/-- t.Add(name): stages the named path into the index — with the content the
working tree currently holds, or as a staged deletion (removal from the
index) when the file is gone from the working tree. -/
def stageAddPath (idx w : FS) (name : String) : FS :=
  match fsFind w name with
  | some c => (name, c) :: fsErase idx name
  | none => fsErase idx name

/-- autoAddModifiedAndDeleted (the All option of t.Commit): every file
already in the index is restaged from the working tree — a modified tracked
file gets its new content, a deleted tracked file leaves the index — while a
file absent from the index (untracked) is never staged. -/
def autoStage : FS → FS → FS
  | [], _ => []
  | p :: rest, w =>
    match fsFind w p.1 with
    | some c => (p.1, c) :: autoStage rest w
    | none => autoStage rest w

/-- The commit object t.Commit creates: fixed system author, committer from
the acting component, caller-supplied message, and the tree built from the
staging index. -/
def mkCommit (st : RepoState) (tree : FS) (component message : String) : CommitRec :=
  { hash := "h" ++ toString st.log.length
    message := message
    authorName := "config-history-operator"
    authorEmail := "config-history-operator@openshift.io"
    committerName := component
    committerEmail := component ++ "@openshift.io"
    tree := tree }

/-- commit: get the worktree, compute the status, return an empty hash with
no error when it is clean; otherwise stage the named path, and on commit
creation restage the modified and deleted tracked files (All set to true)
and commit the staging index as the tree, which also becomes the head and
the stored index.  A failed commit creation leaves the path staged.  Returns
the result, the new repository state and the trace of git operations
reached. -/
def commit (env : CommitEnv) (st : RepoState) (name component message : String) :
    Except String String × RepoState × List GitOp :=
  if env.worktreeErr then (Except.error "worktree", st, [GitOp.getWorktree])
  else if env.statusErr then (Except.error "status", st, [GitOp.getWorktree, GitOp.getStatus])
  else if isCleanStatus st.worktree st.index st.head then
    (Except.ok "", st, [GitOp.getWorktree, GitOp.getStatus])
  else if env.addErr then
    (Except.error "add", st, [GitOp.getWorktree, GitOp.getStatus, GitOp.stageAdd])
  else
    let idx1 := stageAddPath st.index st.worktree name
    if env.commitErr then
      (Except.error "commit", { st with index := idx1 },
        [GitOp.getWorktree, GitOp.getStatus, GitOp.stageAdd, GitOp.createCommit])
    else
      let tree := autoStage idx1 st.worktree
      let c := mkCommit st tree component message
      (Except.ok c.hash, { st with index := tree, head := tree, log := st.log ++ [c] },
        [GitOp.getWorktree, GitOp.getStatus, GitOp.stageAdd, GitOp.createCommit])

/-- A git reference: its name, its target (a hash for a direct reference,
another reference name for a symbolic one) and its kind. -/
inductive RefType where
  | hashRef
  | symbolicRef
deriving DecidableEq

structure Ref where
  name : String
  target : String
  type : RefType
deriving DecidableEq

def isHashRef (r : Ref) : Bool :=
  decide (r.type = RefType.hashRef)

/-- The line written for one direct reference: Reference.Strings() yields
the pair (name, hash) and the source prints hash, tab, name, newline. -/
def refLine (r : Ref) : String :=
  r.target ++ "\t" ++ r.name ++ "\n"

/-- Failure environment for updateRefsFile: repo.References() returning an
error (and a nil iterator), the iteration failing, MkdirAll failing, and
WriteFile failing. -/
structure RefsEnv where
  referencesErr : Bool
  forEachErr : Bool
  mkdirErr : Bool
  writeFileErr : Bool
deriving DecidableEq

/-- Outcome of updateRefsFile: the new content of .git/info/refs, or a panic
that kills the process. -/
inductive RefsOutcome where
  | ok (data : String)
  | panicked
deriving DecidableEq

/-- updateRefsFile: the References() error is discarded in the source, but on
that error the returned iterator is nil and the immediately following
refs.ForEach call dereferences it, panicking; an iteration error, a MkdirAll
error and a WriteFile error each reach an explicit panic(err).  The data is
accumulated by appending one line per direct reference, and WriteFile
replaces the whole prior content of the file, which is therefore ignored. -/
def updateRefsFile (env : RefsEnv) (refs : List Ref) (prior : Option String) : RefsOutcome :=
  if env.referencesErr then RefsOutcome.panicked
  else
    let data := refs.foldl (fun acc r => if isHashRef r then acc ++ refLine r else acc) ""
    if env.forEachErr then RefsOutcome.panicked
    else if env.mkdirErr then RefsOutcome.panicked
    else if env.writeFileErr then RefsOutcome.panicked
    else RefsOutcome.ok data

/-- The references of the modelled repository: the current branch head when a
commit exists, plus the symbolic HEAD reference. -/
def repoRefs (st : RepoState) : List Ref :=
  (match st.log.getLast? with
   | none => []
   | some c => [{ name := "refs/heads/master", target := c.hash, type := RefType.hashRef }])
  ++ [{ name := "HEAD", target := "refs/heads/master", type := RefType.symbolicRef }]

/-- The steps of one event that the handlers reach, in order. -/
inductive Stage where
  | decodeFailed
  | decoded
  | writeFailed
  | wrote
  | removeFailed
  | removed
  | commitTried
  | published
deriving DecidableEq

/-- Failure environment of one event, grouping the three layers. -/
structure EventEnv where
  writeEnv : WriteEnv
  commitEnv : CommitEnv
  refsEnv : RefsEnv
deriving DecidableEq

inductive EventKind where
  | add
  | update
  | delete
deriving DecidableEq

/-- One invocation of an entry point: which handler, the dynamic argument
(for OnUpdate only the new object, the old one is ignored by the source),
and the failure environment of the collaborators during this event. -/
structure Event where
  kind : EventKind
  obj : InputObj
  env : EventEnv
deriving DecidableEq

/-- Result of one handler invocation: the state left behind, the trace of
stages reached, and whether the handler panicked (killing the process). -/
structure StepOut where
  state : RepoState
  trace : List Stage
  panicked : Bool
deriving DecidableEq

/-- The final updateRefsFile step shared by the three handlers.  The publish
stage is recorded as reached whether or not it panics. -/
def publishStep (env : RefsEnv) (st : RepoState) (tr : List Stage) : StepOut :=
  match updateRefsFile env (repoRefs st) st.refsFile with
  | RefsOutcome.panicked => { state := st, trace := tr ++ [Stage.published], panicked := true }
  | RefsOutcome.ok data =>
    { state := { st with refsFile := some data }
      trace := tr ++ [Stage.published]
      panicked := false }

def addMessage (name : String) : String := name ++ " added"

def modifyMessage (name : String) : String := name ++ " modified"

/-- The removal message uses the quoting format verb, so the name is
surrounded by double quotes. -/
def removeMessage (name : String) : String := "\"" ++ name ++ "\" removed"

/-- OnAdd: decode, write, commit with the added message (a commit error is
only logged), then publish. -/
def onAdd (env : EventEnv) (obj : InputObj) (st : RepoState) : StepOut :=
  match decodeUnstructuredObject obj with
  | DecodeResult.panicked => { state := st, trace := [], panicked := true }
  | DecodeResult.ok _ (Except.error _) =>
    { state := st, trace := [Stage.decodeFailed], panicked := false }
  | DecodeResult.ok name (Except.ok content) =>
    match write env.writeEnv st.worktree name content with
    | Except.error _ =>
      { state := st, trace := [Stage.decoded, Stage.writeFailed], panicked := false }
    | Except.ok wt =>
      let r := commit env.commitEnv { st with worktree := wt } name "operator" (addMessage name)
      publishStep env.refsEnv r.2.1 [Stage.decoded, Stage.wrote, Stage.commitTried]

/-- OnUpdate: same as OnAdd except for the commit message; the old object is
ignored. -/
def onUpdate (env : EventEnv) (obj : InputObj) (st : RepoState) : StepOut :=
  match decodeUnstructuredObject obj with
  | DecodeResult.panicked => { state := st, trace := [], panicked := true }
  | DecodeResult.ok _ (Except.error _) =>
    { state := st, trace := [Stage.decodeFailed], panicked := false }
  | DecodeResult.ok name (Except.ok content) =>
    match write env.writeEnv st.worktree name content with
    | Except.error _ =>
      { state := st, trace := [Stage.decoded, Stage.writeFailed], panicked := false }
    | Except.ok wt =>
      let r := commit env.commitEnv { st with worktree := wt } name "operator" (modifyMessage name)
      publishStep env.refsEnv r.2.1 [Stage.decoded, Stage.wrote, Stage.commitTried]

/-- OnDelete: decode (the content is discarded but a decode error still
stops the event), remove the file, commit with the removal message (a commit
error is only logged), then publish. -/
def onDelete (env : EventEnv) (obj : InputObj) (st : RepoState) : StepOut :=
  match decodeUnstructuredObject obj with
  | DecodeResult.panicked => { state := st, trace := [], panicked := true }
  | DecodeResult.ok _ (Except.error _) =>
    { state := st, trace := [Stage.decodeFailed], panicked := false }
  | DecodeResult.ok name (Except.ok _) =>
    match delete env.writeEnv st.worktree name with
    | Except.error _ =>
      { state := st, trace := [Stage.decoded, Stage.removeFailed], panicked := false }
    | Except.ok wt =>
      let r := commit env.commitEnv { st with worktree := wt } name "operator" (removeMessage name)
      publishStep env.refsEnv r.2.1 [Stage.decoded, Stage.removed, Stage.commitTried]

/-- Dispatch of one event to its entry point. -/
def stepOut (ev : Event) (st : RepoState) : StepOut :=
  match ev.kind with
  | EventKind.add => onAdd ev.env ev.obj st
  | EventKind.update => onUpdate ev.env ev.obj st
  | EventKind.delete => onDelete ev.env ev.obj st

/-- Processing of a sequence of externally serialized events; a panic kills
the process, so the remaining events are not processed. -/
def processAll (st : RepoState) : List Event → RepoState
  | [] => st
  | e :: es =>
    let o := stepOut e st
    if o.panicked then o.state else processAll o.state es

/-- Whether the commit writer creates a commit from this state, and which:
mirrors the control flow of commit. -/
def commitCreates (env : CommitEnv) (st : RepoState) (name component message : String) :
    Option CommitRec :=
  if env.worktreeErr then none
  else if env.statusErr then none
  else if isCleanStatus st.worktree st.index st.head then none
  else if env.addErr then none
  else if env.commitErr then none
  else some (mkCommit st (autoStage (stageAddPath st.index st.worktree name) st.worktree)
    component message)

/-- The commit one event appends to the history log, none when the event is
skipped (decode, write or remove failure) or its commit is skipped or
fails. -/
def eventCommit (ev : Event) (st : RepoState) : Option CommitRec :=
  match decodeUnstructuredObject ev.obj with
  | DecodeResult.panicked => none
  | DecodeResult.ok _ (Except.error _) => none
  | DecodeResult.ok name (Except.ok content) =>
    match ev.kind with
    | EventKind.add =>
      match write ev.env.writeEnv st.worktree name content with
      | Except.error _ => none
      | Except.ok wt =>
        commitCreates ev.env.commitEnv { st with worktree := wt } name "operator" (addMessage name)
    | EventKind.update =>
      match write ev.env.writeEnv st.worktree name content with
      | Except.error _ => none
      | Except.ok wt =>
        commitCreates ev.env.commitEnv { st with worktree := wt } name "operator" (modifyMessage name)
    | EventKind.delete =>
      match delete ev.env.writeEnv st.worktree name with
      | Except.error _ => none
      | Except.ok wt =>
        commitCreates ev.env.commitEnv { st with worktree := wt } name "operator" (removeMessage name)

/-- The commits a sequence of events produces, one optional commit per event
in invocation order, cut short when an event panics the process. -/
def eventCommitsFrom (st : RepoState) : List Event → List CommitRec
  | [] => []
  | e :: es =>
    let o := stepOut e st
    (eventCommit e st).toList ++ (if o.panicked then [] else eventCommitsFrom o.state es)

/-- An all-success environment for each layer. -/
def okWriteEnv : WriteEnv :=
  { lstatErr := false, createErr := false, writeErr := false
    closeErr := false, removeErr := false }

def okCommitEnv : CommitEnv :=
  { worktreeErr := false, statusErr := false, addErr := false, commitErr := false }

def okRefsEnv : RefsEnv :=
  { referencesErr := false, forEachErr := false, mkdirErr := false, writeFileErr := false }

def okEnv : EventEnv :=
  { writeEnv := okWriteEnv, commitEnv := okCommitEnv, refsEnv := okRefsEnv }

/-- Position of the first occurrence of an element in a list. -/
def posOf {α : Type} [DecidableEq α] : List α → α → Nat
  | [], _ => 0
  | a :: rest, t => if a = t then 0 else posOf rest t + 1

theorem fsFind_cons_self (fs : FS) (n c : String) : fsFind ((n, c) :: fs) n = some c := by
  simp [fsFind]

theorem fsFind_cons_ne (fs : FS) (n c m : String) (h : m ≠ n) :
    fsFind ((n, c) :: fs) m = fsFind fs m := by
  simp [fsFind, Ne.symm h]

theorem fsFind_eq_none_of_not_mem (fs : FS) (n : String) (h : n ∉ fs.map Prod.fst) :
    fsFind fs n = none := by
  induction fs with
  | nil => rfl
  | cons p rest ih =>
    simp only [List.map_cons, List.mem_cons] at h
    push_neg at h
    simp [fsFind, Ne.symm h.1, ih h.2]

theorem isCleanStatus_iff (w idx h : FS) :
    isCleanStatus w idx h = true
      ↔ ∀ n, fsFind idx n = fsFind h n ∧ fsFind w n = fsFind idx n := by
  constructor
  · intro hall n
    rw [isCleanStatus, List.all_eq_true] at hall
    by_cases hw : n ∈ w.map Prod.fst
    · simpa using hall n (by simp [hw])
    · by_cases hi : n ∈ idx.map Prod.fst
      · simpa using hall n (by simp [hi])
      · by_cases hh : n ∈ h.map Prod.fst
        · simpa using hall n (by simp [hh])
        · rw [fsFind_eq_none_of_not_mem w n hw, fsFind_eq_none_of_not_mem idx n hi,
            fsFind_eq_none_of_not_mem h n hh]
          exact ⟨rfl, rfl⟩
  · intro hpt
    rw [isCleanStatus, List.all_eq_true]
    intro n _
    simp [(hpt n).1, (hpt n).2]

theorem stageAddPath_find_self (idx w : FS) (name : String) :
    fsFind (stageAddPath idx w name) name = fsFind w name := by
  rw [stageAddPath]
  cases hf : fsFind w name with
  | some c => simp [fsFind]
  | none => rw [fsFind_erase_self]

theorem stageAddPath_find_ne (idx w : FS) (name m : String) (h : m ≠ name) :
    fsFind (stageAddPath idx w name) m = fsFind idx m := by
  rw [stageAddPath]
  cases hf : fsFind w name with
  | some c =>
    rw [show fsFind ((name, c) :: fsErase idx name) m = fsFind (fsErase idx name) m from by
      simp [fsFind, Ne.symm h]]
    exact fsFind_erase_ne idx name m h
  | none => exact fsFind_erase_ne idx name m h

/-- The index after the All auto-staging, pointwise: a tracked file follows
the working tree, an untracked file stays out. -/
theorem autoStage_find (idx w : FS) (n : String) :
    fsFind (autoStage idx w) n
      = match fsFind idx n with
        | some _ => fsFind w n
        | none => none := by
  induction idx with
  | nil => rfl
  | cons p rest ih =>
    by_cases hp : p.1 = n
    · subst hp
      cases hw : fsFind w p.1 with
      | some c => simp [autoStage, hw, fsFind]
      | none =>
        rw [autoStage]
        rw [hw, ih]
        cases fsFind rest p.1 <;> simp [fsFind, hw]
    · cases hw : fsFind w p.1 with
      | some c =>
        rw [autoStage]
        rw [hw]
        rw [show fsFind ((p.1, c) :: autoStage rest w) n = fsFind (autoStage rest w) n from by
          simp [fsFind, hp]]
        rw [ih]
        simp [fsFind, hp]
      | none =>
        rw [autoStage]
        rw [hw, ih]
        simp [fsFind, hp]

/-- Specification of a successful write: the named file holds exactly the new
content and every other file is untouched. -/
theorem write_ok_spec (env : WriteEnv) (fs : FS) (name content : String) (fs2 : FS)
    (h : write env fs name content = Except.ok fs2) :
    fsFind fs2 name = some content ∧ ∀ m, m ≠ name → fsFind fs2 m = fsFind fs m := by
  rw [write] at h
  split at h
  · exact absurd h (by simp)
  · rename_i hl
    split at h
    · split at h
      · exact absurd h (by simp)
      · split at h
        · exact absurd h (by simp)
        · split at h
          · exact absurd h (by simp)
          · rw [Except.ok.injEq] at h
            subst h
            exact ⟨fsFind_cons_self fs name content,
              fun m hm => fsFind_cons_ne fs name content m hm⟩
    · split at h
      · exact absurd h (by simp)
      · rw [write, if_neg hl] at h
        split at h
        · split at h
          · exact absurd h (by simp)
          · split at h
            · exact absurd h (by simp)
            · split at h
              · exact absurd h (by simp)
              · rw [Except.ok.injEq] at h
                subst h
                refine ⟨fsFind_cons_self _ name content, fun m hm => ?_⟩
                rw [fsFind_cons_ne _ name content m hm, fsFind_erase_ne fs name m hm]
        · rename_i v2 hfind2
          rw [fsFind_erase_self] at hfind2
          exact absurd hfind2 (by simp)

/-- Writing a content that the file already holds: the write succeeds and the
result agrees pointwise with the original tree. -/
theorem write_existing (fs : FS) (name content : String)
    (h : fsFind fs name = some content) :
    write okWriteEnv fs name content = Except.ok ((name, content) :: fsErase fs name) := by
  rw [write, if_neg (by decide : ¬ okWriteEnv.lstatErr = true)]
  split
  · rename_i hfind
    rw [h] at hfind
    exact absurd hfind (by simp)
  · rw [if_neg (by decide : ¬ okWriteEnv.removeErr = true)]
    rw [write, if_neg (by decide : ¬ okWriteEnv.lstatErr = true)]
    split
    · simp [okWriteEnv]
    · rename_i v2 hfind2
      rw [fsFind_erase_self] at hfind2
      exact absurd hfind2 (by simp)

/-- The state the commit writer leaves behind appends exactly the optional
commit that commitCreates describes. -/
theorem commit_log (env : CommitEnv) (st : RepoState) (name component message : String) :
    (commit env st name component message).2.1.log
      = st.log ++ (commitCreates env st name component message).toList := by
  rw [commit, commitCreates]
  by_cases h1 : env.worktreeErr
  · simp [h1]
  · by_cases h2 : env.statusErr
    · simp [h1, h2]
    · by_cases h3 : isCleanStatus st.worktree st.index st.head
      · simp [h1, h2, h3]
      · by_cases h4 : env.addErr
        · simp [h1, h2, h3, h4]
        · by_cases h5 : env.commitErr
          · simp [h1, h2, h3, h4, h5]
          · simp [h1, h2, h3, h4, h5]

theorem publishStep_log (env : RefsEnv) (st : RepoState) (tr : List Stage) :
    (publishStep env st tr).state.log = st.log := by
  rw [publishStep]
  cases updateRefsFile env (repoRefs st) st.refsFile <;> rfl

theorem onAdd_log (env : EventEnv) (obj : InputObj) (st : RepoState) :
    (onAdd env obj st).state.log
      = st.log ++ (eventCommit { kind := EventKind.add, obj := obj, env := env } st).toList := by
  unfold onAdd eventCommit
  dsimp only
  cases hd : decodeUnstructuredObject obj with
  | panicked => simp
  | ok name res =>
    cases res with
    | error e => simp
    | ok content =>
      cases hw : write env.writeEnv st.worktree name content with
      | error e => simp [hw]
      | ok wt => simp [hw, publishStep_log, commit_log]

theorem onUpdate_log (env : EventEnv) (obj : InputObj) (st : RepoState) :
    (onUpdate env obj st).state.log
      = st.log ++ (eventCommit { kind := EventKind.update, obj := obj, env := env } st).toList := by
  unfold onUpdate eventCommit
  dsimp only
  cases hd : decodeUnstructuredObject obj with
  | panicked => simp
  | ok name res =>
    cases res with
    | error e => simp
    | ok content =>
      cases hw : write env.writeEnv st.worktree name content with
      | error e => simp [hw]
      | ok wt => simp [hw, publishStep_log, commit_log]

theorem onDelete_log (env : EventEnv) (obj : InputObj) (st : RepoState) :
    (onDelete env obj st).state.log
      = st.log ++ (eventCommit { kind := EventKind.delete, obj := obj, env := env } st).toList := by
  unfold onDelete eventCommit
  dsimp only
  cases hd : decodeUnstructuredObject obj with
  | panicked => simp
  | ok name res =>
    cases res with
    | error e => simp
    | ok content =>
      cases hw : delete env.writeEnv st.worktree name with
      | error e => simp [hw]
      | ok wt => simp [hw, publishStep_log, commit_log]

/-- Each event appends exactly the optional commit described by eventCommit;
no step rewrites or drops an existing log entry. -/
theorem stepOut_log (ev : Event) (st : RepoState) :
    (stepOut ev st).state.log = st.log ++ (eventCommit ev st).toList := by
  obtain ⟨k, obj, env⟩ := ev
  cases k
  · exact onAdd_log env obj st
  · exact onUpdate_log env obj st
  · exact onDelete_log env obj st

theorem publishStep_keeps (env : RefsEnv) (st : RepoState) (tr : List Stage) :
    (publishStep env st tr).state.worktree = st.worktree ∧
    (publishStep env st tr).state.index = st.index ∧
    (publishStep env st tr).state.head = st.head := by
  rw [publishStep]
  cases updateRefsFile env (repoRefs st) st.refsFile <;> exact ⟨rfl, rfl, rfl⟩

/-- With a clean status the commit writer skips: empty hash, no error, state
unchanged, and the staging operation never reached. -/
theorem commit_clean_skip (env : CommitEnv) (st : RepoState) (name comp msg : String)
    (h1 : env.worktreeErr = false) (h2 : env.statusErr = false)
    (hclean : isCleanStatus st.worktree st.index st.head = true) :
    commit env st name comp msg = (Except.ok "", st, [GitOp.getWorktree, GitOp.getStatus]) := by
  rw [commit]
  simp [h1, h2, hclean]

/-- With a dirty status and a healthy environment the commit writer creates
exactly one commit: the named path is staged, the tracked files are restaged
from the working tree, and the resulting index becomes the commit tree, the
head and the stored index. -/
theorem commit_not_clean_ok (st : RepoState) (name comp msg : String)
    (hdirty : isCleanStatus st.worktree st.index st.head = false) :
    commit okCommitEnv st name comp msg =
      (Except.ok (mkCommit st (autoStage (stageAddPath st.index st.worktree name) st.worktree)
          comp msg).hash,
       { st with index := autoStage (stageAddPath st.index st.worktree name) st.worktree,
                 head := autoStage (stageAddPath st.index st.worktree name) st.worktree,
                 log := st.log ++ [mkCommit st
                   (autoStage (stageAddPath st.index st.worktree name) st.worktree) comp msg] },
       [GitOp.getWorktree, GitOp.getStatus, GitOp.stageAdd, GitOp.createCommit]) := by
  rw [commit]
  simp [okCommitEnv, hdirty]

/-- State left by a successful add with fresh content: tree written, the
staged index committed and advanced to the head, exactly one commit
appended. -/
theorem onAdd_state (u : Unstructured) (st : RepoState) (wt1 : FS)
    (henc : u.encodeErr = false) (hyaml : u.yamlErr = false)
    (hw : write okWriteEnv st.worktree (resourceFilename u.gvk) u.yamlBytes = Except.ok wt1)
    (hdirty : isCleanStatus wt1 st.index st.head = false) :
    (onAdd okEnv (InputObj.unstructured u) st).state.worktree = wt1 ∧
    (onAdd okEnv (InputObj.unstructured u) st).state.index
        = autoStage (stageAddPath st.index wt1 (resourceFilename u.gvk)) wt1 ∧
    (onAdd okEnv (InputObj.unstructured u) st).state.head
        = autoStage (stageAddPath st.index wt1 (resourceFilename u.gvk)) wt1 ∧
    (onAdd okEnv (InputObj.unstructured u) st).state.log.length = st.log.length + 1 := by
  have hc := commit_not_clean_ok { st with worktree := wt1 } (resourceFilename u.gvk)
    "operator" (addMessage (resourceFilename u.gvk)) hdirty
  unfold onAdd
  simp only [decodeUnstructuredObject, henc, hyaml, Bool.false_eq_true, if_false]
  dsimp only [okEnv]
  simp only [hw]
  rw [hc]
  dsimp only
  refine ⟨(publishStep_keeps _ _ _).1, (publishStep_keeps _ _ _).2.1,
    (publishStep_keeps _ _ _).2.2, ?_⟩
  rw [publishStep_log]
  simp

/-- State left by a successful update with fresh content. -/
theorem onUpdate_state (u : Unstructured) (st : RepoState) (wt1 : FS)
    (henc : u.encodeErr = false) (hyaml : u.yamlErr = false)
    (hw : write okWriteEnv st.worktree (resourceFilename u.gvk) u.yamlBytes = Except.ok wt1)
    (hdirty : isCleanStatus wt1 st.index st.head = false) :
    (onUpdate okEnv (InputObj.unstructured u) st).state.worktree = wt1 ∧
    (onUpdate okEnv (InputObj.unstructured u) st).state.index
        = autoStage (stageAddPath st.index wt1 (resourceFilename u.gvk)) wt1 ∧
    (onUpdate okEnv (InputObj.unstructured u) st).state.head
        = autoStage (stageAddPath st.index wt1 (resourceFilename u.gvk)) wt1 ∧
    (onUpdate okEnv (InputObj.unstructured u) st).state.log.length = st.log.length + 1 := by
  have hc := commit_not_clean_ok { st with worktree := wt1 } (resourceFilename u.gvk)
    "operator" (modifyMessage (resourceFilename u.gvk)) hdirty
  unfold onUpdate
  simp only [decodeUnstructuredObject, henc, hyaml, Bool.false_eq_true, if_false]
  dsimp only [okEnv]
  simp only [hw]
  rw [hc]
  dsimp only
  refine ⟨(publishStep_keeps _ _ _).1, (publishStep_keeps _ _ _).2.1,
    (publishStep_keeps _ _ _).2.2, ?_⟩
  rw [publishStep_log]
  simp

/-- An add or update event whose content the tracked file already holds, in
a settled state (working tree, index and head pointwise equal), creates no
commit: the rewrite leaves the tree pointwise unchanged, so the status is
clean. -/
theorem eventCommit_noop (u : Unstructured) (st : RepoState) (k : EventKind)
    (hk : k = EventKind.add ∨ k = EventKind.update)
    (henc : u.encodeErr = false) (hyaml : u.yamlErr = false)
    (hfound : fsFind st.worktree (resourceFilename u.gvk) = some u.yamlBytes)
    (hidx : ∀ n, fsFind st.worktree n = fsFind st.index n)
    (hhead : ∀ n, fsFind st.index n = fsFind st.head n) :
    eventCommit { kind := k, obj := InputObj.unstructured u, env := okEnv } st = none := by
  have hwe := write_existing st.worktree (resourceFilename u.gvk) u.yamlBytes hfound
  have hclean : isCleanStatus
      ((resourceFilename u.gvk, u.yamlBytes) :: fsErase st.worktree (resourceFilename u.gvk))
      st.index st.head = true := by
    rw [isCleanStatus_iff]
    intro n
    refine ⟨hhead n, ?_⟩
    by_cases hn : n = resourceFilename u.gvk
    · subst hn
      rw [fsFind_cons_self, ← hidx (resourceFilename u.gvk), hfound]
    · rw [fsFind_cons_ne _ _ _ _ hn, fsFind_erase_ne _ _ _ hn, hidx n]
  unfold eventCommit
  dsimp only
  simp only [decodeUnstructuredObject, henc, hyaml, Bool.false_eq_true, if_false]
  rcases hk with hk | hk <;> subst hk <;> dsimp only [okEnv] <;> simp only [hwe] <;>
    rw [commitCreates] <;> simp [okCommitEnv, hclean]

/-- The history log over a whole run: the initial log followed by the commits
of the events, one optional commit per event in invocation order. -/
theorem processAll_log (es : List Event) (st : RepoState) :
    (processAll st es).log = st.log ++ eventCommitsFrom st es := by
  induction es generalizing st with
  | nil => simp [processAll, eventCommitsFrom]
  | cons e rest ih =>
    rw [processAll, eventCommitsFrom]
    by_cases hp : (stepOut e st).panicked
    · simp [hp, stepOut_log]
    · simp only [hp, if_false, Bool.false_eq_true, List.append_nil]
      rw [ih, stepOut_log, List.append_assoc]

/-- The index file content the specification describes: one line per direct
reference, in order. -/
def renderedRefLines : List Ref → String
  | [] => ""
  | r :: rs => refLine r ++ renderedRefLines rs

theorem foldl_refLine (l : List Ref) (acc : String) :
    l.foldl (fun a r => if isHashRef r then a ++ refLine r else a) acc
      = acc ++ renderedRefLines (l.filter isHashRef) := by
  induction l generalizing acc with
  | nil => simp [renderedRefLines, String.append_empty]
  | cons r rs ih =>
    by_cases hr : isHashRef r
    · simp only [List.foldl_cons, List.filter_cons, hr, if_true, renderedRefLines, ih,
        String.append_assoc]
    · simp only [List.foldl_cons, List.filter_cons, hr, Bool.false_eq_true, if_false, ih]

theorem updateRefsFile_ok (renv : RefsEnv) (refs : List Ref) (prior : Option String)
    (h1 : renv.referencesErr = false) (h2 : renv.forEachErr = false)
    (h3 : renv.mkdirErr = false) (h4 : renv.writeFileErr = false) :
    updateRefsFile renv refs prior
      = RefsOutcome.ok (renderedRefLines (refs.filter isHashRef)) := by
  rw [updateRefsFile]
  simp only [h1, h2, h3, h4, Bool.false_eq_true, if_false]
  rw [foldl_refLine, String.empty_append]

theorem decode_unstructured_ne_panic (u : Unstructured) :
    decodeUnstructuredObject (InputObj.unstructured u) ≠ DecodeResult.panicked := by
  rw [decodeUnstructuredObject]
  by_cases he : u.encodeErr <;> by_cases hy : u.yamlErr <;> simp [he, hy]

theorem publishStep_ok (st : RepoState) (tr : List Stage) :
    (publishStep okRefsEnv st tr).panicked = false := by
  rw [publishStep, updateRefsFile_ok okRefsEnv (repoRefs st) st.refsFile rfl rfl rfl rfl]

theorem publishStep_trace (env : RefsEnv) (st : RepoState) (tr : List Stage) :
    (publishStep env st tr).trace = tr ++ [Stage.published] := by
  rw [publishStep]
  cases updateRefsFile env (repoRefs st) st.refsFile <;> rfl

/-- The trace of a handler is one of six shapes. -/
theorem stepOut_trace_cases (ev : Event) (st : RepoState) :
    (stepOut ev st).trace = [] ∨
    (stepOut ev st).trace = [Stage.decodeFailed] ∨
    (stepOut ev st).trace = [Stage.decoded, Stage.writeFailed] ∨
    (stepOut ev st).trace = [Stage.decoded, Stage.removeFailed] ∨
    (stepOut ev st).trace = [Stage.decoded, Stage.wrote, Stage.commitTried, Stage.published] ∨
    (stepOut ev st).trace = [Stage.decoded, Stage.removed, Stage.commitTried, Stage.published] := by
  obtain ⟨k, o, e⟩ := ev
  cases k
  · rw [show stepOut ⟨EventKind.add, o, e⟩ st = onAdd e o st from rfl]
    unfold onAdd
    cases decodeUnstructuredObject o with
    | panicked => simp
    | ok name res =>
      cases res with
      | error er => simp
      | ok content =>
        cases hw : write e.writeEnv st.worktree name content with
        | error er => simp [hw]
        | ok wt => simp [hw, publishStep_trace]
  · rw [show stepOut ⟨EventKind.update, o, e⟩ st = onUpdate e o st from rfl]
    unfold onUpdate
    cases decodeUnstructuredObject o with
    | panicked => simp
    | ok name res =>
      cases res with
      | error er => simp
      | ok content =>
        cases hw : write e.writeEnv st.worktree name content with
        | error er => simp [hw]
        | ok wt => simp [hw, publishStep_trace]
  · rw [show stepOut ⟨EventKind.delete, o, e⟩ st = onDelete e o st from rfl]
    unfold onDelete
    cases decodeUnstructuredObject o with
    | panicked => simp
    | ok name res =>
      cases res with
      | error er => simp
      | ok content =>
        cases hw : delete e.writeEnv st.worktree name with
        | error er => simp [hw]
        | ok wt => simp [hw, publishStep_trace]

/-- An event whose object is an Unstructured never panics a handler when the
index environment is healthy: decode, write and commit failures are all
recovered locally. -/
theorem handler_no_panic (ev : Event) (st : RepoState) (u : Unstructured)
    (hobj : ev.obj = InputObj.unstructured u) (hrefs : ev.env.refsEnv = okRefsEnv) :
    (stepOut ev st).panicked = false := by
  obtain ⟨k, o, e⟩ := ev
  replace hobj : o = InputObj.unstructured u := hobj
  replace hrefs : e.refsEnv = okRefsEnv := hrefs
  subst hobj
  cases k
  · rw [show stepOut ⟨EventKind.add, InputObj.unstructured u, e⟩ st
        = onAdd e (InputObj.unstructured u) st from rfl]
    unfold onAdd
    cases hd : decodeUnstructuredObject (InputObj.unstructured u) with
    | panicked => exact absurd hd (decode_unstructured_ne_panic u)
    | ok name res =>
      cases res with
      | error er => rfl
      | ok content =>
        cases hw : write e.writeEnv st.worktree name content with
        | error er => simp [hw]
        | ok wt =>
          simp only [hw]
          rw [hrefs]
          exact publishStep_ok _ _
  · rw [show stepOut ⟨EventKind.update, InputObj.unstructured u, e⟩ st
        = onUpdate e (InputObj.unstructured u) st from rfl]
    unfold onUpdate
    cases hd : decodeUnstructuredObject (InputObj.unstructured u) with
    | panicked => exact absurd hd (decode_unstructured_ne_panic u)
    | ok name res =>
      cases res with
      | error er => rfl
      | ok content =>
        cases hw : write e.writeEnv st.worktree name content with
        | error er => simp [hw]
        | ok wt =>
          simp only [hw]
          rw [hrefs]
          exact publishStep_ok _ _
  · rw [show stepOut ⟨EventKind.delete, InputObj.unstructured u, e⟩ st
        = onDelete e (InputObj.unstructured u) st from rfl]
    unfold onDelete
    cases hd : decodeUnstructuredObject (InputObj.unstructured u) with
    | panicked => exact absurd hd (decode_unstructured_ne_panic u)
    | ok name res =>
      cases res with
      | error er => rfl
      | ok content =>
        cases hw : delete e.writeEnv st.worktree name with
        | error er => simp [hw]
        | ok wt =>
          simp only [hw]
          rw [hrefs]
          exact publishStep_ok _ _

/-- Claim C2 counterexample: it is false that decoding never panics
regardless of the input object's concrete type: the unchecked type assertion
panics on an input whose concrete type is not a pointer to
unstructured.Unstructured. -/
theorem decode_never_panics_false :
    ¬ (∀ obj, decodeUnstructuredObject obj ≠ DecodeResult.panicked) := by
  intro h
  exact h InputObj.other rfl

/-- Claim C2 amended: for every input object that is a pointer to
unstructured.Unstructured, decoding never panics, and an encode or conversion
failure is reported as an error value carrying the file name and no content;
an input of any other concrete type panics in the type assertion. -/
theorem decode_failure_reported_not_raised (u : Unstructured) :
    decodeUnstructuredObject (InputObj.unstructured u) ≠ DecodeResult.panicked ∧
    (u.encodeErr = true ∨ u.yamlErr = true →
      ∃ e, decodeUnstructuredObject (InputObj.unstructured u)
        = DecodeResult.ok (resourceFilename u.gvk) (Except.error e)) := by
  refine ⟨decode_unstructured_ne_panic u, ?_⟩
  rintro (he | hy)
  · exact ⟨"encode", by simp [decodeUnstructuredObject, he]⟩
  · by_cases he2 : u.encodeErr
    · exact ⟨"encode", by simp [decodeUnstructuredObject, he2]⟩
    · exact ⟨"JSONToYAML", by simp [decodeUnstructuredObject, he2, hy]⟩

/-- Witness for the amended claim C2, at an object whose encoding fails. -/
theorem decode_failure_reported_not_raised_witness :
    decodeUnstructuredObject (InputObj.unstructured
        ⟨⟨"", "v1", "ConfigMap"⟩, "p", true, false, "y"⟩) ≠ DecodeResult.panicked ∧
    ∃ e, decodeUnstructuredObject (InputObj.unstructured
        ⟨⟨"", "v1", "ConfigMap"⟩, "p", true, false, "y"⟩)
      = DecodeResult.ok (resourceFilename ⟨"", "v1", "ConfigMap"⟩) (Except.error e) := by
  have h := decode_failure_reported_not_raised ⟨⟨"", "v1", "ConfigMap"⟩, "p", true, false, "y"⟩
  exact ⟨h.1, h.2 (Or.inl rfl)⟩

/-- Claim C5: after write succeeds, the named file exists and its bytes are
exactly the new content while every other file is untouched, in both the
file-absent case and the file-present case; no residual old bytes remain. -/
theorem write_full_overwrite (env : WriteEnv) (fs : FS) (name content : String) (fs2 : FS)
    (h : write env fs name content = Except.ok fs2) :
    fsFind fs2 name = some content ∧ ∀ m, m ≠ name → fsFind fs2 m = fsFind fs m :=
  write_ok_spec env fs name content fs2 h

/-- Witness for claim C5: shorter content replacing longer prior content. -/
theorem write_full_overwrite_witness :
    fsFind [("a.yaml", "new")] "a.yaml" = some "new" ∧
    fsFind [("a.yaml", "new")] "b.yaml" = fsFind [("a.yaml", "longer old bytes")] "b.yaml" := by
  have hw : write okWriteEnv [("a.yaml", "longer old bytes")] "a.yaml" "new"
      = Except.ok [("a.yaml", "new")] := by
    simp [write, okWriteEnv, fsFind, fsErase]
  exact ⟨(write_full_overwrite okWriteEnv _ "a.yaml" "new" _ hw).1,
    (write_full_overwrite okWriteEnv _ "a.yaml" "new" _ hw).2 "b.yaml" (by decide)⟩

/-- Claim C6: over any sequence of serialized invocations the commits
appended to the history log appear in exactly the invocation order, at most
one commit per event, omitting only events that were skipped or failed; the
store never reorders or rewrites existing log entries. -/
theorem history_log_order_preserved (es : List Event) (st : RepoState) :
    (processAll st es).log = st.log ++ eventCommitsFrom st es :=
  processAll_log es st

/-- Claim C9: the snapshot file name is the lowercased kind.version.group.yaml
string computed solely from the type descriptor, independent of the instance
identity and payload; for kind ConfigMap, version v1 and empty group it is
configmap.v1..yaml. -/
theorem snapshot_filename_from_type_descriptor (gvk : GroupVersionKind) (u v : Unstructured) :
    resourceFilename gvk
        = strToLower (gvk.kind ++ "." ++ gvk.version ++ "." ++ gvk.group ++ ".yaml") ∧
    (∃ r, decodeUnstructuredObject (InputObj.unstructured u)
        = DecodeResult.ok (resourceFilename u.gvk) r) ∧
    (u.gvk = v.gvk → resourceFilename u.gvk = resourceFilename v.gvk) ∧
    resourceFilename { group := "", version := "v1", kind := "ConfigMap" }
        = "configmap.v1..yaml" := by
  refine ⟨rfl, ?_, fun h => by rw [h], by decide⟩
  by_cases he : u.encodeErr
  · exact ⟨Except.error "encode", by simp [decodeUnstructuredObject, he]⟩
  · by_cases hy : u.yamlErr
    · exact ⟨Except.error "JSONToYAML", by simp [decodeUnstructuredObject, he, hy]⟩
    · exact ⟨Except.ok u.yamlBytes, by simp [decodeUnstructuredObject, he, hy]⟩

/-- Witness for claim C9: two objects of the same type with different payloads
map to the same file name. -/
theorem snapshot_filename_witness :
    resourceFilename { group := "", version := "v1", kind := "ConfigMap" }
        = "configmap.v1..yaml" ∧
    resourceFilename (⟨⟨"", "v1", "ConfigMap"⟩, "payload one", false, false, "y1"⟩
        : Unstructured).gvk
      = resourceFilename (⟨⟨"", "v1", "ConfigMap"⟩, "payload two", false, false, "y2"⟩
        : Unstructured).gvk := by
  have h := snapshot_filename_from_type_descriptor ⟨"", "v1", "ConfigMap"⟩
    ⟨⟨"", "v1", "ConfigMap"⟩, "payload one", false, false, "y1"⟩
    ⟨⟨"", "v1", "ConfigMap"⟩, "payload two", false, false, "y2"⟩
  exact ⟨h.2.2.2, h.2.2.1 rfl⟩

/-- Claim C10 counterexample: it is false that a created commit includes
every pending modification of the working tree: a file left untracked by a
previous event whose staging failed is absent from the next commit's tree,
although the working tree holds it. -/
theorem commit_all_folds_untracked_false :
    ¬ (∀ (st : RepoState) (n comp msg : String),
        isCleanStatus st.worktree st.index st.head = false →
        ∀ m, fsFind (commit okCommitEnv st n comp msg).2.1.head m = fsFind st.worktree m) := by
  intro h
  have hx := h
    { worktree := [("leftover.yaml", "x"), ("b.yaml", "new")], index := [], head := [],
      log := [], refsFile := none }
    "b.yaml" "operator" "m" (by decide) "leftover.yaml"
  exact absurd hx (by decide)

/-- Claim C10 amended: when the commit writer creates a commit (All option),
the committed tree — which also becomes the head — is the staging index
after staging: it carries the named path with its working-tree content, and
every tracked file (already in the index) follows the working tree, so
modified and deleted tracked leftovers of a previous event whose commit step
failed are folded in; a file absent from the index (an untracked leftover
whose staging failed) is not included. -/
theorem commit_all_stages_tracked_changes (st : RepoState) (n comp msg : String)
    (hdirty : isCleanStatus st.worktree st.index st.head = false) :
    ∃ c, (commit okCommitEnv st n comp msg).2.1.log = st.log ++ [c] ∧
      (commit okCommitEnv st n comp msg).2.1.head = c.tree ∧
      c.message = msg ∧
      fsFind c.tree n = fsFind st.worktree n ∧
      (∀ m, m ≠ n → (fsFind st.index m).isSome = true →
        fsFind c.tree m = fsFind st.worktree m) ∧
      (∀ m, m ≠ n → fsFind st.index m = none → fsFind c.tree m = none) := by
  refine ⟨mkCommit st (autoStage (stageAddPath st.index st.worktree n) st.worktree) comp msg,
    ?_, ?_, rfl, ?_, ?_, ?_⟩
  · rw [commit_not_clean_ok st n comp msg hdirty]
  · rw [commit_not_clean_ok st n comp msg hdirty]
    rfl
  · show fsFind (autoStage (stageAddPath st.index st.worktree n) st.worktree) n
      = fsFind st.worktree n
    rw [autoStage_find, stageAddPath_find_self]
    cases fsFind st.worktree n <;> rfl
  · intro m hm hsome
    show fsFind (autoStage (stageAddPath st.index st.worktree n) st.worktree) m
      = fsFind st.worktree m
    rw [autoStage_find, stageAddPath_find_ne st.index st.worktree n m hm]
    cases hi : fsFind st.index m with
    | some v => rfl
    | none => rw [hi] at hsome; exact absurd hsome (by simp)
  · intro m hm hnone
    show fsFind (autoStage (stageAddPath st.index st.worktree n) st.worktree) m = none
    rw [autoStage_find, stageAddPath_find_ne st.index st.worktree n m hm, hnone]

/-- Witness for the amended claim C10: committing b.yaml folds in the
modified tracked file but not the untracked leftover. -/
theorem commit_all_stages_tracked_changes_witness :
    fsFind (commit okCommitEnv
        { worktree := [("tracked.yaml", "v2"), ("untracked.yaml", "x"), ("b.yaml", "new")],
          index := [("tracked.yaml", "v1")], head := [("tracked.yaml", "v1")],
          log := [], refsFile := none } "b.yaml" "operator" "m").2.1.head "tracked.yaml"
      = some "v2" ∧
    fsFind (commit okCommitEnv
        { worktree := [("tracked.yaml", "v2"), ("untracked.yaml", "x"), ("b.yaml", "new")],
          index := [("tracked.yaml", "v1")], head := [("tracked.yaml", "v1")],
          log := [], refsFile := none } "b.yaml" "operator" "m").2.1.head "untracked.yaml"
      = none := by
  obtain ⟨c, h1, h2, h3, h4, h5, h6⟩ := commit_all_stages_tracked_changes
    { worktree := [("tracked.yaml", "v2"), ("untracked.yaml", "x"), ("b.yaml", "new")],
      index := [("tracked.yaml", "v1")], head := [("tracked.yaml", "v1")],
      log := [], refsFile := none } "b.yaml" "operator" "m" (by decide)
  constructor
  · rw [h2, h5 "tracked.yaml" (by decide) (by decide)]
    decide
  · rw [h2, h6 "untracked.yaml" (by decide) (by decide)]

/-- Claim C7 counterexample: it is false that the commit writer stages the
named path before computing the status: on a dirty repository the staging
operation appears strictly after the status in the trace. -/
theorem commit_stage_then_status_false :
    ¬ (∀ env st n comp msg,
        GitOp.stageAdd ∈ (commit env st n comp msg).2.2 →
        posOf (commit env st n comp msg).2.2 GitOp.stageAdd
          < posOf (commit env st n comp msg).2.2 GitOp.getStatus) := by
  intro hcl
  have h := hcl okCommitEnv
    { worktree := [("a.yaml", "x")], index := [], head := [], log := [], refsFile := none }
    "a.yaml" "operator" "m" (by decide)
  exact absurd h (by decide)

/-- Claim C7 amended: the commit writer first computes the working-tree
status versus the last commit and uses it to decide whether to skip; only
then does it stage the named path.  The status strictly precedes the staging
in every trace, and on a clean status the staging is never reached. -/
theorem commit_status_precedes_staging (env : CommitEnv) (st : RepoState) (n comp msg : String) :
    (GitOp.stageAdd ∈ (commit env st n comp msg).2.2 →
      posOf (commit env st n comp msg).2.2 GitOp.getStatus
        < posOf (commit env st n comp msg).2.2 GitOp.stageAdd) ∧
    (env.worktreeErr = false → env.statusErr = false →
      isCleanStatus st.worktree st.index st.head = true →
      commit env st n comp msg = (Except.ok "", st, [GitOp.getWorktree, GitOp.getStatus]) ∧
      GitOp.stageAdd ∉ (commit env st n comp msg).2.2) := by
  constructor
  · rw [commit]
    by_cases h1 : env.worktreeErr <;> by_cases h2 : env.statusErr <;>
      by_cases h3 : isCleanStatus st.worktree st.index st.head <;> by_cases h4 : env.addErr <;>
      by_cases h5 : env.commitErr <;>
      simp [h1, h2, h3, h4, h5, posOf]
  · intro h1 h2 hclean
    have hc := commit_clean_skip env st n comp msg h1 h2 hclean
    rw [hc]
    exact ⟨rfl, by simp⟩

/-- Witness for the amended claim C7: a dirty and a clean concrete state. -/
theorem commit_status_precedes_staging_witness :
    posOf (commit okCommitEnv
        { worktree := [("a.yaml", "x")], index := [], head := [], log := [], refsFile := none }
        "a.yaml" "operator" "m").2.2 GitOp.getStatus
      < posOf (commit okCommitEnv
        { worktree := [("a.yaml", "x")], index := [], head := [], log := [], refsFile := none }
        "a.yaml" "operator" "m").2.2 GitOp.stageAdd ∧
    commit okCommitEnv { worktree := [], index := [], head := [], log := [], refsFile := none }
        "a.yaml" "operator" "m"
      = (Except.ok "", { worktree := [], index := [], head := [], log := [], refsFile := none },
         [GitOp.getWorktree, GitOp.getStatus]) := by
  refine ⟨(commit_status_precedes_staging okCommitEnv
      { worktree := [("a.yaml", "x")], index := [], head := [], log := [], refsFile := none }
      "a.yaml" "operator" "m").1 (by decide),
    ((commit_status_precedes_staging okCommitEnv
      { worktree := [], index := [], head := [], log := [], refsFile := none }
      "a.yaml" "operator" "m").2 rfl rfl (by decide)).1⟩

/-- Claim C8: with a healthy environment updateRefsFile writes one
hash-tab-name-newline line for exactly the direct references and no others,
and the write fully replaces any prior content of the index file. -/
theorem refs_file_format (renv : RefsEnv) (refs : List Ref) (p1 p2 : Option String)
    (h1 : renv.referencesErr = false) (h2 : renv.forEachErr = false)
    (h3 : renv.mkdirErr = false) (h4 : renv.writeFileErr = false) :
    updateRefsFile renv refs p1 = RefsOutcome.ok (renderedRefLines (refs.filter isHashRef)) ∧
    (∀ r, refLine r = r.target ++ "\t" ++ r.name ++ "\n") ∧
    updateRefsFile renv refs p1 = updateRefsFile renv refs p2 :=
  ⟨updateRefsFile_ok renv refs p1 h1 h2 h3 h4, fun _ => rfl, rfl⟩

/-- Witness for claim C8: one direct and one symbolic reference, with a
nonempty prior file content that is fully replaced. -/
theorem refs_file_format_witness :
    updateRefsFile okRefsEnv
        [{ name := "refs/heads/master", target := "abc123", type := RefType.hashRef },
         { name := "HEAD", target := "refs/heads/master", type := RefType.symbolicRef }]
        (some "stale prior content")
      = RefsOutcome.ok "abc123\trefs/heads/master\n" := by
  have h := (refs_file_format okRefsEnv
    [{ name := "refs/heads/master", target := "abc123", type := RefType.hashRef },
     { name := "HEAD", target := "refs/heads/master", type := RefType.symbolicRef }]
    (some "stale prior content") none rfl rfl rfl rfl).1
  rw [h]
  decide

/-- Claim C4: every failure to enumerate the references (the discarded
References() error leaves a nil iterator that the following ForEach call
dereferences) and every failure to persist the index file panics the process
— updateRefsFile never continues silently past such a failure — while
decode, write-layer and commit failures never panic a handler. -/
theorem index_failure_fatal (renv : RefsEnv) (refs : List Ref) (prior : Option String)
    (ev : Event) (st : RepoState) (u : Unstructured) :
    (renv.referencesErr = true ∨ renv.forEachErr = true ∨ renv.mkdirErr = true ∨
        renv.writeFileErr = true →
      updateRefsFile renv refs prior = RefsOutcome.panicked) ∧
    (renv.referencesErr = false → renv.forEachErr = false → renv.mkdirErr = false →
        renv.writeFileErr = false →
      updateRefsFile renv refs prior
        = RefsOutcome.ok (renderedRefLines (refs.filter isHashRef))) ∧
    (ev.obj = InputObj.unstructured u → ev.env.refsEnv = okRefsEnv →
      (stepOut ev st).panicked = false) := by
  refine ⟨?_, fun h1 h2 h3 h4 => updateRefsFile_ok renv refs prior h1 h2 h3 h4,
    fun hobj hrefs => handler_no_panic ev st u hobj hrefs⟩
  intro hfail
  rw [updateRefsFile]
  by_cases g1 : renv.referencesErr
  · simp [g1]
  · by_cases g2 : renv.forEachErr
    · simp [g1, g2]
    · by_cases g3 : renv.mkdirErr
      · simp [g1, g2, g3]
      · by_cases g4 : renv.writeFileErr
        · simp [g1, g2, g3, g4]
        · rcases hfail with h | h | h | h
          · exact absurd h (by simp [g1])
          · exact absurd h (by simp [g2])
          · exact absurd h (by simp [g3])
          · exact absurd h (by simp [g4])

/-- Witness for claim C4: a References failure panics; a handler given a
commit failure with a healthy index environment does not panic. -/
theorem index_failure_fatal_witness :
    updateRefsFile
        { referencesErr := true, forEachErr := false, mkdirErr := false, writeFileErr := false }
        [] none
      = RefsOutcome.panicked ∧
    (stepOut
        { kind := EventKind.add
          obj := InputObj.unstructured ⟨⟨"", "v1", "ConfigMap"⟩, "p", false, false, "y"⟩
          env := { writeEnv := okWriteEnv
                   commitEnv := { worktreeErr := false, statusErr := false,
                                  addErr := false, commitErr := true }
                   refsEnv := okRefsEnv } }
        { worktree := [], index := [], head := [], log := [], refsFile := none }).panicked = false := by
  refine ⟨(index_failure_fatal
      { referencesErr := true, forEachErr := false, mkdirErr := false, writeFileErr := false }
      [] none
      { kind := EventKind.add
        obj := InputObj.unstructured ⟨⟨"", "v1", "ConfigMap"⟩, "p", false, false, "y"⟩
        env := okEnv }
      { worktree := [], index := [], head := [], log := [], refsFile := none }
      ⟨⟨"", "v1", "ConfigMap"⟩, "p", false, false, "y"⟩).1 (Or.inl rfl),
    (index_failure_fatal okRefsEnv [] none
      { kind := EventKind.add
        obj := InputObj.unstructured ⟨⟨"", "v1", "ConfigMap"⟩, "p", false, false, "y"⟩
        env := { writeEnv := okWriteEnv
                 commitEnv := { worktreeErr := false, statusErr := false,
                                addErr := false, commitErr := true }
                 refsEnv := okRefsEnv } }
      { worktree := [], index := [], head := [], log := [], refsFile := none }
      ⟨⟨"", "v1", "ConfigMap"⟩, "p", false, false, "y"⟩).2.2 rfl rfl⟩

/-- Claim C3: whenever the commit step of an event runs — including when it
fails — the publish step still runs after it; a decode, write or remove
failure stops the event before any commit or publish is attempted. -/
theorem commit_failure_does_not_stop_publish (ev : Event) (st : RepoState) :
    (Stage.commitTried ∈ (stepOut ev st).trace →
      Stage.published ∈ (stepOut ev st).trace ∧
      posOf (stepOut ev st).trace Stage.commitTried
        < posOf (stepOut ev st).trace Stage.published) ∧
    (Stage.decodeFailed ∈ (stepOut ev st).trace ∨ Stage.writeFailed ∈ (stepOut ev st).trace ∨
        Stage.removeFailed ∈ (stepOut ev st).trace →
      Stage.commitTried ∉ (stepOut ev st).trace ∧ Stage.published ∉ (stepOut ev st).trace) := by
  rcases stepOut_trace_cases ev st with h | h | h | h | h | h <;> rw [h] <;>
    exact ⟨by decide, by decide⟩

/-- Witness for claim C3: an add event whose commit fails still reaches the
publish step. -/
theorem commit_failure_does_not_stop_publish_witness :
    Stage.published ∈ (stepOut
        { kind := EventKind.add
          obj := InputObj.unstructured ⟨⟨"", "v1", "ConfigMap"⟩, "p", false, false, "y"⟩
          env := { writeEnv := okWriteEnv
                   commitEnv := { worktreeErr := false, statusErr := false,
                                  addErr := false, commitErr := true }
                   refsEnv := okRefsEnv } }
        { worktree := [], index := [], head := [], log := [], refsFile := none }).trace := by
  have ht : (stepOut
      { kind := EventKind.add
        obj := InputObj.unstructured ⟨⟨"", "v1", "ConfigMap"⟩, "p", false, false, "y"⟩
        env := { writeEnv := okWriteEnv
                 commitEnv := { worktreeErr := false, statusErr := false,
                                addErr := false, commitErr := true }
                 refsEnv := okRefsEnv } }
      { worktree := [], index := [], head := [], log := [], refsFile := none }).trace
      = [Stage.decoded, Stage.wrote, Stage.commitTried, Stage.published] := by
    simp [stepOut, onAdd, decodeUnstructuredObject, write, fsFind, commit, isCleanStatus,
      publishStep, updateRefsFile, repoRefs, okWriteEnv, okRefsEnv, refLine, isHashRef]
  exact ((commit_failure_does_not_stop_publish
    { kind := EventKind.add
      obj := InputObj.unstructured ⟨⟨"", "v1", "ConfigMap"⟩, "p", false, false, "y"⟩
      env := { writeEnv := okWriteEnv
               commitEnv := { worktreeErr := false, statusErr := false,
                              addErr := false, commitErr := true }
               refsEnv := okRefsEnv } }
    { worktree := [], index := [], head := [], log := [], refsFile := none }).1
    (by rw [ht]; decide)).1

/-- Claim C1 counterexample: it is false that every add or update event
whose serialized content equals the committed content of its file skips
commit creation and leaves the history log unchanged: from a state holding
an untracked leftover file — reachable when a previous event's commit step
failed before staging — the status is never clean, so a duplicate commit is
created although the named file's content is unchanged. -/
theorem noop_event_grows_log_once_false :
    ¬ (∀ (u : Unstructured) (st : RepoState),
        u.encodeErr = false → u.yamlErr = false →
        fsFind st.head (resourceFilename u.gvk) = some u.yamlBytes →
        (stepOut { kind := EventKind.add, obj := InputObj.unstructured u, env := okEnv }
          st).state.log = st.log) := by
  intro h
  have hrf : resourceFilename ⟨"", "v1", "ConfigMap"⟩ = "configmap.v1..yaml" := by decide
  have hx := h ⟨⟨"", "v1", "ConfigMap"⟩, "p", false, false, "data1"⟩
    { worktree := [("configmap.v1..yaml", "data1"), ("leftover.yaml", "x")]
      index := [("configmap.v1..yaml", "data1")]
      head := [("configmap.v1..yaml", "data1")]
      log := []
      refsFile := none }
    rfl rfl (by rw [hrf]; decide)
  have hlen : (stepOut
      { kind := EventKind.add
        obj := InputObj.unstructured ⟨⟨"", "v1", "ConfigMap"⟩, "p", false, false, "data1"⟩
        env := okEnv }
      { worktree := [("configmap.v1..yaml", "data1"), ("leftover.yaml", "x")]
        index := [("configmap.v1..yaml", "data1")]
        head := [("configmap.v1..yaml", "data1")]
        log := []
        refsFile := none }).state.log.length = 1 := by
    simp [stepOut, onAdd, decodeUnstructuredObject, hrf, write, fsFind, fsErase, okEnv,
      okWriteEnv, okCommitEnv, okRefsEnv, commit, isCleanStatus, stageAddPath, autoStage,
      mkCommit, publishStep, updateRefsFile, repoRefs, refLine, isHashRef]
  rw [hx] at hlen
  exact absurd hlen (by decide)

/-- Claim C1 amended: in a healthy environment and from a settled state
(clean status: no untracked or unstaged leftovers of previously failed
events), when the serialized content of an add or update event equals the
committed content of its file the commit writer finds the status clean,
skips commit creation and returns an empty identifier with no error; hence
processing the same object twice in a row grows the history log by exactly
one commit, not two. -/
theorem noop_event_grows_log_once
    (u : Unstructured) (st : RepoState) (k : EventKind) (wt1 : FS)
    (hkind : k = EventKind.add ∨ k = EventKind.update)
    (henc : u.encodeErr = false) (hyaml : u.yamlErr = false)
    (hsettled : isCleanStatus st.worktree st.index st.head = true)
    (hw : write okWriteEnv st.worktree (resourceFilename u.gvk) u.yamlBytes = Except.ok wt1)
    (hdirty : isCleanStatus wt1 st.index st.head = false) :
    (∀ st3 n comp msg, isCleanStatus st3.worktree st3.index st3.head = true →
        commit okCommitEnv st3 n comp msg
          = (Except.ok "", st3, [GitOp.getWorktree, GitOp.getStatus])) ∧
    (stepOut { kind := k, obj := InputObj.unstructured u, env := okEnv } st).state.log.length
        = st.log.length + 1 ∧
    (stepOut { kind := k, obj := InputObj.unstructured u, env := okEnv }
        ((stepOut { kind := k, obj := InputObj.unstructured u, env := okEnv } st).state)).state.log
      = (stepOut { kind := k, obj := InputObj.unstructured u, env := okEnv } st).state.log := by
  obtain ⟨hname, hframe⟩ :=
    write_ok_spec okWriteEnv st.worktree (resourceFilename u.gvk) u.yamlBytes wt1 hw
  have hsettled2 := (isCleanStatus_iff st.worktree st.index st.head).1 hsettled
  have hpt : ∀ n, fsFind wt1 n
      = fsFind (autoStage (stageAddPath st.index wt1 (resourceFilename u.gvk)) wt1) n := by
    intro n
    rw [autoStage_find]
    by_cases hn : n = resourceFilename u.gvk
    · subst hn
      rw [stageAddPath_find_self, hname]
    · rw [stageAddPath_find_ne st.index wt1 (resourceFilename u.gvk) n hn]
      have hwn : fsFind wt1 n = fsFind st.index n := by
        rw [hframe n hn, (hsettled2 n).2]
      cases hi : fsFind st.index n with
      | some v => rw [hwn, hi]
      | none => rw [hwn, hi]
  refine ⟨fun st3 n comp msg hclean => commit_clean_skip okCommitEnv st3 n comp msg rfl rfl hclean,
    ?_, ?_⟩
  · rcases hkind with hk | hk <;> subst hk
    · exact (onAdd_state u st wt1 henc hyaml hw hdirty).2.2.2
    · exact (onUpdate_state u st wt1 henc hyaml hw hdirty).2.2.2
  · rcases hkind with hk | hk <;> subst hk
    · obtain ⟨hwt, hidx, hhd, hlen⟩ := onAdd_state u st wt1 henc hyaml hw hdirty
      have hec := eventCommit_noop u
        ((stepOut { kind := EventKind.add, obj := InputObj.unstructured u, env := okEnv } st).state)
        EventKind.add (Or.inl rfl) henc hyaml
        (by rw [show (stepOut { kind := EventKind.add, obj := InputObj.unstructured u, env := okEnv } st).state.worktree = wt1 from hwt]; exact hname)
        (by intro n; rw [show (stepOut { kind := EventKind.add, obj := InputObj.unstructured u, env := okEnv } st).state.worktree = wt1 from hwt, show (stepOut { kind := EventKind.add, obj := InputObj.unstructured u, env := okEnv } st).state.index = autoStage (stageAddPath st.index wt1 (resourceFilename u.gvk)) wt1 from hidx]; exact hpt n)
        (by intro n; rw [show (stepOut { kind := EventKind.add, obj := InputObj.unstructured u, env := okEnv } st).state.index = autoStage (stageAddPath st.index wt1 (resourceFilename u.gvk)) wt1 from hidx, show (stepOut { kind := EventKind.add, obj := InputObj.unstructured u, env := okEnv } st).state.head = autoStage (stageAddPath st.index wt1 (resourceFilename u.gvk)) wt1 from hhd])
      rw [stepOut_log, hec]
      simp
    · obtain ⟨hwt, hidx, hhd, hlen⟩ := onUpdate_state u st wt1 henc hyaml hw hdirty
      have hec := eventCommit_noop u
        ((stepOut { kind := EventKind.update, obj := InputObj.unstructured u, env := okEnv } st).state)
        EventKind.update (Or.inr rfl) henc hyaml
        (by rw [show (stepOut { kind := EventKind.update, obj := InputObj.unstructured u, env := okEnv } st).state.worktree = wt1 from hwt]; exact hname)
        (by intro n; rw [show (stepOut { kind := EventKind.update, obj := InputObj.unstructured u, env := okEnv } st).state.worktree = wt1 from hwt, show (stepOut { kind := EventKind.update, obj := InputObj.unstructured u, env := okEnv } st).state.index = autoStage (stageAddPath st.index wt1 (resourceFilename u.gvk)) wt1 from hidx]; exact hpt n)
        (by intro n; rw [show (stepOut { kind := EventKind.update, obj := InputObj.unstructured u, env := okEnv } st).state.index = autoStage (stageAddPath st.index wt1 (resourceFilename u.gvk)) wt1 from hidx, show (stepOut { kind := EventKind.update, obj := InputObj.unstructured u, env := okEnv } st).state.head = autoStage (stageAddPath st.index wt1 (resourceFilename u.gvk)) wt1 from hhd])
      rw [stepOut_log, hec]
      simp

/-- Witness for the amended claim C1: adding a ConfigMap to an empty, settled
repository and then processing the identical event again. -/
theorem noop_event_grows_log_once_witness :
    (stepOut
        { kind := EventKind.add
          obj := InputObj.unstructured ⟨⟨"", "v1", "ConfigMap"⟩, "p", false, false, "data1"⟩
          env := okEnv }
      { worktree := [], index := [], head := [], log := [],
        refsFile := none }).state.log.length = 1 ∧
    (stepOut
        { kind := EventKind.add
          obj := InputObj.unstructured ⟨⟨"", "v1", "ConfigMap"⟩, "p", false, false, "data1"⟩
          env := okEnv }
      ((stepOut
          { kind := EventKind.add
            obj := InputObj.unstructured ⟨⟨"", "v1", "ConfigMap"⟩, "p", false, false, "data1"⟩
            env := okEnv }
        { worktree := [], index := [], head := [], log := [],
          refsFile := none }).state)).state.log
      = (stepOut
          { kind := EventKind.add
            obj := InputObj.unstructured ⟨⟨"", "v1", "ConfigMap"⟩, "p", false, false, "data1"⟩
            env := okEnv }
        { worktree := [], index := [], head := [], log := [],
          refsFile := none }).state.log := by
  have h := noop_event_grows_log_once
    ⟨⟨"", "v1", "ConfigMap"⟩, "p", false, false, "data1"⟩
    { worktree := [], index := [], head := [], log := [], refsFile := none } EventKind.add
    [(resourceFilename ⟨"", "v1", "ConfigMap"⟩, "data1")]
    (Or.inl rfl) rfl rfl (by decide) (by simp [write, okWriteEnv, fsFind])
    (by simp [isCleanStatus, fsFind])
  exact ⟨h.2.1, h.2.2⟩

end ConfigHistory
